import Mathlib

/-!
Shallow embedding of the newscat feature-engineering core
(`model` package, feature writers) in Lean 4.

Go float32 values are modelled as rationals; Go nonnegative int counters as
Nat. A Go runtime panic (nil dereference, index out of range, integer
division by zero) is modelled by returning `none`, so every operation that
can panic lives in `Option`.
-/

namespace Newscat

/-- Feature vector: a fixed-capacity numeric array with zero default,
modelling the Go arrays `[36]float32` / `[10]float32` viewed as full slices
(for which `len = cap`). -/
structure FVec where
  size : Nat
  data : Nat → ℚ

/-- Models an in-place store `v[i] = x` (the bounds check lives in the
writer, which is the only code that stores). -/
def FVec.set (v : FVec) (i : Nat) (x : ℚ) : FVec :=
  ⟨v.size, fun j => if j = i then x else v.data j⟩

@[simp] theorem FVec.size_set (v : FVec) (i : Nat) (x : ℚ) :
    (v.set i x).size = v.size := rfl

@[simp] theorem FVec.data_set (v : FVec) (i : Nat) (x : ℚ) (j : Nat) :
    (v.set i x).data j = if j = i then x else v.data j := rfl

/-- chunkFeatureCap = 36 -/
def chunkFeatureCap : Nat := 36

/-- boostFeatureCap = 10 -/
def boostFeatureCap : Nat := 10

/-- Go bool written into a float32 slot: 1.0 for true, 0.0 for false. -/
def boolVal (b : Bool) : ℚ := if b then 1 else 0

/-- featureWriter: cursor-based writer over a bound vector.
`feature = none` models the nil slice before the first Assign. -/
structure FeatureWriter where
  feature : Option FVec
  Pos : Nat

/-- featureWriter.Assign: panics (none) when a vector is bound and the
cursor differs from its capacity; otherwise binds the new vector and
resets the cursor. -/
def FeatureWriter.Assign (fw : FeatureWriter) (f : FVec) : Option FeatureWriter :=
  match fw.feature with
  | some v => if fw.Pos ≠ v.size then none else some ⟨some f, 0⟩
  | none => some ⟨some f, 0⟩

/-- featureWriter.write: store `val` at `Pos + off`, then advance the
cursor by `skip`. Panics (none) on a nil vector or an out-of-range index. -/
def FeatureWriter.write (fw : FeatureWriter) (val : ℚ) (off skip : Nat) :
    Option FeatureWriter :=
  match fw.feature with
  | none => none
  | some v =>
    if fw.Pos + off < v.size then
      some ⟨some (v.set (fw.Pos + off) val), fw.Pos + skip⟩
    else
      none

/-- featureWriter.Write: store at the cursor and advance by one. -/
def FeatureWriter.Write (fw : FeatureWriter) (val : ℚ) : Option FeatureWriter :=
  fw.write val 0 1

/-- featureWriter.WriteAt: store at `Pos + off` without advancing. -/
def FeatureWriter.WriteAt (fw : FeatureWriter) (val : ℚ) (off : Nat) :
    Option FeatureWriter :=
  fw.write val off 0

/-- featureWriter.Skip: advance the cursor by n without storing. -/
def FeatureWriter.Skip (fw : FeatureWriter) (n : Nat) : FeatureWriter :=
  ⟨fw.feature, fw.Pos + n⟩

/-- html.TextStat: word, sentence and occurrence counters (nonnegative
Go ints). -/
structure TextStat where
  Words : Nat
  Sentences : Nat
  Count : Nat
deriving DecidableEq

/-- Neighbor view of a chunk: the only fields of `Chunk.Prev` / `Chunk.Next`
the encoders read (Block identity and the two text counters). -/
structure Neighbor where
  Block : Nat
  Words : Nat
  Sentences : Nat
deriving DecidableEq

/-- Ancestor bitmask flags. Modelled from the spec: the html package
constants are not under src; they are four distinct bits tested with
bitwise and. -/
def AncestorArticle : Nat := 1

/-- Second ancestor flag, see `AncestorArticle`. -/
def AncestorAside : Nat := 2

/-- Third ancestor flag, see `AncestorArticle`. -/
def AncestorBlockquote : Nat := 4

/-- Fourth ancestor flag, see `AncestorArticle`. -/
def AncestorList : Nat := 8

/-- html.Chunk, restricted to the fields the feature writers read.
`id` models pointer identity; `Data` is `Base.Data` (the tag name);
`ParentData` is `Base.Parent.Data` when `Base.Parent` is non-nil;
`SiblingTypes` is the result of `GetSiblingTypes()`. -/
structure Chunk where
  id : Nat
  Data : String
  ParentData : Option String
  SiblingTypes : List String
  Ancestors : Nat
  Words : Nat
  Sentences : Nat
  LinkText : Nat
  Prev : Option Neighbor
  Next : Option Neighbor
  Block : Nat
  Classes : List String
deriving DecidableEq

/-- Go map read `m[k]` for a `map[string]int` returns the zero value 0
when the key is absent. -/
def mapGet (m : List (String × Nat)) (k : String) : Nat :=
  (m.lookup k).getD 0

/-- elementTypes map: offsets of the element-type one-hot. The h1 entry
covers h2..h6 at the same offset. -/
def elementTypes : List (String × Nat) :=
  [("p", 0), ("a", 1), ("div", 2),
   ("h1", 3), ("h2", 3), ("h3", 3), ("h4", 3), ("h5", 3), ("h6", 3)]

/-- parentTypes map: offsets of the parent-type one-hot. -/
def parentTypes : List (String × Nat) :=
  [("p", 0), ("span", 1), ("div", 2), ("li", 3)]

/-- chunkFeatureWriter.WriteElementType: one-hot of the element type via
`WriteAt(true, elementTypes[tag])`, then `Skip(4)`. -/
def chunkWriteElementType (fw : FeatureWriter) (chunk : Chunk) :
    Option FeatureWriter := do
  let fw ← fw.WriteAt (boolVal true) (mapGet elementTypes chunk.Data)
  pure (fw.Skip 4)

/-- chunkFeatureWriter.WriteParentType: one-hot of the parent tag when a
parent exists, then `Skip(4)`. -/
def chunkWriteParentType (fw : FeatureWriter) (chunk : Chunk) :
    Option FeatureWriter := do
  let fw ← match chunk.ParentData with
    | some p => fw.WriteAt (boolVal true) (mapGet parentTypes p)
    | none => pure fw
  pure (fw.Skip 4)

/-- chunkFeatureWriter.WriteSiblingTypes: total sibling count, counts of
a/p/img siblings, and their fractions of the total when the total is
positive (else the three fraction slots are skipped). -/
def chunkWriteSiblingTypes (fw : FeatureWriter) (chunk : Chunk) :
    Option FeatureWriter := do
  let count := chunk.SiblingTypes.length
  let na := chunk.SiblingTypes.count "a"
  let np := chunk.SiblingTypes.count "p"
  let ni := chunk.SiblingTypes.count "img"
  let fw ← fw.Write (count : ℚ)
  let fw ← fw.Write (na : ℚ)
  let fw ← fw.Write (np : ℚ)
  let fw ← fw.Write (ni : ℚ)
  if 0 < count then do
    let fw ← fw.Write ((na : ℚ) / (count : ℚ))
    let fw ← fw.Write ((np : ℚ) / (count : ℚ))
    fw.Write ((ni : ℚ) / (count : ℚ))
  else
    pure (fw.Skip 3)

/-- chunkFeatureWriter.WriteAncestors: four boolean flags from the
ancestor bitmask. -/
def chunkWriteAncestors (fw : FeatureWriter) (chunk : Chunk) :
    Option FeatureWriter := do
  let fw ← fw.Write (boolVal (chunk.Ancestors &&& AncestorArticle ≠ 0))
  let fw ← fw.Write (boolVal (chunk.Ancestors &&& AncestorAside ≠ 0))
  let fw ← fw.Write (boolVal (chunk.Ancestors &&& AncestorBlockquote ≠ 0))
  fw.Write (boolVal (chunk.Ancestors &&& AncestorList ≠ 0))

/-- chunkFeatureWriter.WriteTextStat: word count, sentence count,
link-text word count. -/
def chunkWriteTextStat (fw : FeatureWriter) (chunk : Chunk) :
    Option FeatureWriter := do
  let fw ← fw.Write (chunk.Words : ℚ)
  let fw ← fw.Write (chunk.Sentences : ℚ)
  fw.Write (chunk.LinkText : ℚ)

/-- chunkFeatureWriter.WriteTextStatSiblings: three slots for the previous
chunk (same-block flag, words, sentences) or a skip, then the same for the
next chunk. -/
def chunkWriteTextStatSiblings (fw : FeatureWriter) (chunk : Chunk) :
    Option FeatureWriter := do
  let fw ← match chunk.Prev with
    | some p => do
      let fw ← fw.Write (boolVal (p.Block = chunk.Block))
      let fw ← fw.Write (p.Words : ℚ)
      fw.Write (p.Sentences : ℚ)
    | none => pure (fw.Skip 3)
  match chunk.Next with
  | some p => do
    let fw ← fw.Write (boolVal (p.Block = chunk.Block))
    let fw ← fw.Write (p.Words : ℚ)
    fw.Write (p.Sentences : ℚ)
  | none => pure (fw.Skip 3)

/-- Go integer division of nonnegative ints: panics (none) on a zero
divisor, otherwise truncating division (= Nat division). -/
def goDiv (a b : Nat) : Option Nat :=
  if b = 0 then none else some (a / b)

/-- Selection loop of chunkFeatureWriter.WriteClassStat: scan the classes
in order, keep the stat with the strictly larger integer quotient
Words/Count, first stat winning ties. The outer Option models the panic of
the Go integer division when a Count is zero. -/
def findBestStat (m : String → Option TextStat) :
    List String → Option TextStat → Option (Option TextStat)
  | [], best => some best
  | c :: cs, best =>
    match m c with
    | none => findBestStat m cs best
    | some stat =>
      match best with
      | none => findBestStat m cs (some stat)
      | some b => do
        let r ← goDiv stat.Words stat.Count
        let rb ← goDiv b.Words b.Count
        findBestStat m cs (if rb < r then some stat else some b)

/-- chunkFeatureWriter.WriteClassStat: pick the best class statistic via
`findBestStat`; write presence flag and the two float averages when found,
else presence=false and skip the two averages. -/
def chunkWriteClassStat (fw : FeatureWriter) (chunk : Chunk)
    (classes : String → Option TextStat) : Option FeatureWriter := do
  let best ← findBestStat classes chunk.Classes none
  match best with
  | some b => do
    let fw ← fw.Write (boolVal true)
    let fw ← fw.Write ((b.Words : ℚ) / (b.Count : ℚ))
    fw.Write ((b.Sentences : ℚ) / (b.Count : ℚ))
  | none => do
    let fw ← fw.Write (boolVal false)
    pure (fw.Skip 2)

/-- chunkFeatureWriter.WriteClusterStat: five slots when the chunk has an
entry in the cluster-statistics map (keyed by chunk identity), else skip
all five. -/
def chunkWriteClusterStat (fw : FeatureWriter) (chunk : Chunk)
    (clusters : Nat → Option TextStat) : Option FeatureWriter := do
  match clusters chunk.id with
  | some stat => do
    let fw ← fw.Write (stat.Words : ℚ)
    let fw ← fw.Write (stat.Sentences : ℚ)
    let fw ← fw.Write (stat.Count : ℚ)
    let fw ← fw.Write ((stat.Words : ℚ) / (stat.Count : ℚ))
    fw.Write ((stat.Sentences : ℚ) / (stat.Count : ℚ))
  | none => pure (fw.Skip 5)

/-- cluster: ordered chunk membership, parallel per-chunk scores, and the
aggregate score. Modelled from the spec: the cluster type and its Score()
aggregation are not under src; Score() is an externally defined aggregate
of the per-chunk scores, carried here as an opaque per-cluster value. -/
structure Cluster where
  Chunks : List Chunk
  Scores : List ℚ
  score : ℚ

/-- goodQualClass vocabulary (util.NewRegexFromWords word list). -/
def goodQualWords : List String :=
  ["article", "catchline", "chapter", "content", "head", "intro",
   "introduction", "leadin", "main", "post", "story", "summary", "title"]

/-- poorQualClass vocabulary (util.NewRegexFromWords word list). -/
def poorQualWords : List String :=
  ["author", "blog", "byline", "caption", "col", "comment", "description",
   "email", "excerpt", "image", "info", "menu", "metadata", "nav", "photo",
   "small", "teaser", "widget"]

/-- Lexical quality matcher membership test. Modelled from the spec:
util.NewRegexFromWords / In are not under src; section 4.5 specifies a
whole-word match of the token against the compiled vocabulary. -/
def matcherIn (words : List String) (token : String) : Bool :=
  words.contains token

/-- boostFeatureWriter.WriteChunk: link-text words, words, sentences, and
the two lexical quality flags. -/
def boostWriteChunk (fw : FeatureWriter) (chunk : Chunk) :
    Option FeatureWriter := do
  let goodQual := chunk.Classes.any (matcherIn goodQualWords)
  let poorQual := chunk.Classes.any (matcherIn poorQualWords)
  let fw ← fw.Write (chunk.LinkText : ℚ)
  let fw ← fw.Write (chunk.Words : ℚ)
  let fw ← fw.Write (chunk.Sentences : ℚ)
  let fw ← fw.Write (boolVal goodQual)
  fw.Write (boolVal poorQual)

/-- boostFeatureWriter.WriteCluster: linear identity search for the chunk
in the cluster (the loop leaves i = length on a miss, exactly like
List.findIdx), then the aggregate score, the score at i (an index read
that panics out of range, modelled with List.get?), the previous score
when 0 < i else the sentinel -10, and the score at i+1 when
i < length - 2 else the sentinel. The Go comparison i < len-2 is over
ints; for len < 2 it is false, as is the Nat comparison here. -/
def boostWriteCluster (fw : FeatureWriter) (chunk : Chunk) (cl : Cluster) :
    Option FeatureWriter := do
  let i := cl.Chunks.findIdx (fun c => c.id == chunk.id)
  let fw ← fw.Write cl.score
  let s ← cl.Scores.get? i
  let fw ← fw.Write s
  let fw ← if 0 < i then do
      let sp ← cl.Scores.get? (i - 1)
      fw.Write sp
    else
      fw.Write (-10)
  if i < cl.Chunks.length - 2 then do
    let sn ← cl.Scores.get? (i + 1)
    fw.Write sn
  else
    fw.Write (-10)

/-- boostFeatureWriter.WriteTitleSimilarity: for tags h1, h2, h3 write the
similarity of the chunk text and the title, else skip one slot. The
similarity computation (util.Text.Similarity) is external to this core and
is passed in as a value. -/
def boostWriteTitleSimilarity (fw : FeatureWriter) (chunk : Chunk)
    (sim : ℚ) : Option FeatureWriter :=
  if chunk.Data = "h1" ∨ chunk.Data = "h2" ∨ chunk.Data = "h3" then
    fw.Write sim
  else
    pure (fw.Skip 1)

/-- Modelled from the spec: the chunk encoder applies the eight
sub-encodings in the fixed order of section 4.2 (the composing caller is
not under src). -/
def writeChunkFeatures (fw : FeatureWriter) (chunk : Chunk)
    (classes : String → Option TextStat) (clusters : Nat → Option TextStat) :
    Option FeatureWriter := do
  let fw ← chunkWriteElementType fw chunk
  let fw ← chunkWriteParentType fw chunk
  let fw ← chunkWriteSiblingTypes fw chunk
  let fw ← chunkWriteAncestors fw chunk
  let fw ← chunkWriteTextStat fw chunk
  let fw ← chunkWriteTextStatSiblings fw chunk
  let fw ← chunkWriteClassStat fw chunk classes
  chunkWriteClusterStat fw chunk clusters

/-- Fresh writer bound to a zero-initialized vector of the given size,
cursor at zero (the state right after the first Assign). -/
def freshWriter (n : Nat) : FeatureWriter :=
  ⟨some ⟨n, fun _ => 0⟩, 0⟩

/-- Cursor position of an encoder result, when it did not panic. -/
def posOf (r : Option FeatureWriter) : Option Nat :=
  r.map FeatureWriter.Pos

/-- Slot j of the vector bound to an encoder result, when it did not
panic. -/
def slotOf (r : Option FeatureWriter) (j : Nat) : Option ℚ :=
  r.bind (fun fw => fw.feature.map (fun v => v.data j))

/-! Helper lemmas about the writer primitives. -/

theorem write_some {fw : FeatureWriter} {v : FVec} (h : fw.feature = some v)
    (val : ℚ) (off skip : Nat) (hlt : fw.Pos + off < v.size) :
    fw.write val off skip =
      some ⟨some (v.set (fw.Pos + off) val), fw.Pos + skip⟩ := by
  simp only [FeatureWriter.write, h]
  rw [if_pos hlt]

theorem Write_some {fw : FeatureWriter} {v : FVec} (h : fw.feature = some v)
    (val : ℚ) (hlt : fw.Pos < v.size) :
    fw.Write val = some ⟨some (v.set fw.Pos val), fw.Pos + 1⟩ := by
  have := write_some h val 0 1 (by omega)
  simpa using this

theorem WriteAt_some {fw : FeatureWriter} {v : FVec} (h : fw.feature = some v)
    (val : ℚ) (off : Nat) (hlt : fw.Pos + off < v.size) :
    fw.WriteAt val off = some ⟨some (v.set (fw.Pos + off) val), fw.Pos⟩ := by
  have := write_some h val off 0 hlt
  simpa using this

/-- An encoding step `step` advances the cursor by exactly `w` slots and
preserves the bound vector size, whenever the bound vector has at least
`w` slots of room. -/
def advances (step : FeatureWriter → Option FeatureWriter) (w : Nat) : Prop :=
  ∀ fw v, fw.feature = some v → fw.Pos + w ≤ v.size →
    ∃ v2, step fw = some ⟨some v2, fw.Pos + w⟩ ∧ v2.size = v.size

theorem mapGet_elementTypes_le (s : String) : mapGet elementTypes s ≤ 3 := by
  simp only [mapGet, elementTypes, List.lookup]
  repeat' split
  all_goals simp

theorem mapGet_parentTypes_le (s : String) : mapGet parentTypes s ≤ 3 := by
  simp only [mapGet, parentTypes, List.lookup]
  repeat' split
  all_goals simp

theorem bind_Write (v : FVec) (p : Nat) (val : ℚ)
    (k : FeatureWriter → Option FeatureWriter) (hlt : p < v.size) :
    Option.bind (FeatureWriter.Write ⟨some v, p⟩ val) k =
      k ⟨some (v.set p val), p + 1⟩ := by
  rw [Write_some rfl val hlt]
  simp

theorem elementType_advances (chunk : Chunk) :
    advances (chunkWriteElementType · chunk) 4 := by
  intro fw v h hroom
  have hle := mapGet_elementTypes_le chunk.Data
  refine ⟨v.set (fw.Pos + mapGet elementTypes chunk.Data) (boolVal true),
    ?_, rfl⟩
  simp only [chunkWriteElementType]
  rw [WriteAt_some h (boolVal true) (mapGet elementTypes chunk.Data) (by omega)]
  simp [FeatureWriter.Skip]

theorem parentType_advances (chunk : Chunk) :
    advances (chunkWriteParentType · chunk) 4 := by
  intro fw v h hroom
  cases hp : chunk.ParentData with
  | none =>
    refine ⟨v, ?_, rfl⟩
    simp [chunkWriteParentType, hp, FeatureWriter.Skip, h]
  | some par =>
    have hle := mapGet_parentTypes_le par
    refine ⟨v.set (fw.Pos + mapGet parentTypes par) (boolVal true), ?_, rfl⟩
    simp only [chunkWriteParentType, hp]
    rw [WriteAt_some h (boolVal true) (mapGet parentTypes par) (by omega)]
    simp [FeatureWriter.Skip]

theorem siblingTypes_advances (chunk : Chunk) :
    advances (chunkWriteSiblingTypes · chunk) 7 := by
  intro fw v h hroom
  obtain ⟨f, p⟩ := fw
  simp only at h
  subst h
  simp only at hroom
  simp only [chunkWriteSiblingTypes, Option.bind_eq_bind, Option.pure_def]
  rw [bind_Write _ _ _ _ (by omega), bind_Write _ _ _ _ (by first | omega | (simp only [FVec.size_set]; omega)),
    bind_Write _ _ _ _ (by first | omega | (simp only [FVec.size_set]; omega)), bind_Write _ _ _ _ (by first | omega | (simp only [FVec.size_set]; omega))]
  by_cases hc : 0 < chunk.SiblingTypes.length
  · rw [if_pos hc]
    rw [bind_Write _ _ _ _ (by first | omega | (simp only [FVec.size_set]; omega)), bind_Write _ _ _ _ (by first | omega | (simp only [FVec.size_set]; omega)),
      Write_some rfl _ (by first | omega | (simp only [FVec.size_set]; omega))]
    simp only [Option.some.injEq, FeatureWriter.mk.injEq]
    exact ⟨_, ⟨rfl, by first | trivial | omega⟩, by simp⟩
  · rw [if_neg hc]
    simp only [FeatureWriter.Skip, Option.some.injEq, FeatureWriter.mk.injEq]
    exact ⟨_, ⟨rfl, by first | trivial | omega⟩, by simp⟩

theorem ancestors_advances (chunk : Chunk) :
    advances (chunkWriteAncestors · chunk) 4 := by
  intro fw v h hroom
  obtain ⟨f, p⟩ := fw
  simp only at h
  subst h
  simp only at hroom
  simp only [chunkWriteAncestors, Option.bind_eq_bind, Option.pure_def]
  rw [bind_Write _ _ _ _ (by omega), bind_Write _ _ _ _ (by first | omega | (simp only [FVec.size_set]; omega)),
    bind_Write _ _ _ _ (by first | omega | (simp only [FVec.size_set]; omega)), Write_some rfl _ (by first | omega | (simp only [FVec.size_set]; omega))]
  simp only [Option.some.injEq, FeatureWriter.mk.injEq]
  exact ⟨_, ⟨rfl, by first | trivial | omega⟩, by simp⟩

theorem textStat_advances (chunk : Chunk) :
    advances (chunkWriteTextStat · chunk) 3 := by
  intro fw v h hroom
  obtain ⟨f, p⟩ := fw
  simp only at h
  subst h
  simp only at hroom
  simp only [chunkWriteTextStat, Option.bind_eq_bind, Option.pure_def]
  rw [bind_Write _ _ _ _ (by omega), bind_Write _ _ _ _ (by first | omega | (simp only [FVec.size_set]; omega)),
    Write_some rfl _ (by first | omega | (simp only [FVec.size_set]; omega))]
  simp only [Option.some.injEq, FeatureWriter.mk.injEq]
  exact ⟨_, ⟨rfl, by first | trivial | omega⟩, by simp⟩

theorem textStatSiblings_advances (chunk : Chunk) :
    advances (chunkWriteTextStatSiblings · chunk) 6 := by
  intro fw v h hroom
  obtain ⟨f, p⟩ := fw
  simp only at h
  subst h
  simp only at hroom
  simp only [chunkWriteTextStatSiblings, Option.bind_eq_bind, Option.pure_def]
  cases hp : chunk.Prev with
  | none =>
    dsimp only
    cases hn : chunk.Next with
    | none =>
      dsimp only
      refine ⟨v, ?_, rfl⟩
      norm_num [FeatureWriter.Skip]
    | some nx =>
      dsimp only
      simp only [FeatureWriter.Skip, Option.some_bind]
      rw [bind_Write _ _ _ _ (by first | omega | (simp only [FVec.size_set]; omega)), bind_Write _ _ _ _ (by first | omega | (simp only [FVec.size_set]; omega)),
        Write_some rfl _ (by first | omega | (simp only [FVec.size_set]; omega))]
      simp only [Option.some.injEq, FeatureWriter.mk.injEq]
      exact ⟨_, ⟨rfl, by first | trivial | omega⟩, by simp⟩
  | some pr =>
    dsimp only
    cases hn : chunk.Next with
    | none =>
      dsimp only
      rw [bind_Write _ _ _ _ (by omega), bind_Write _ _ _ _ (by first | omega | (simp only [FVec.size_set]; omega)),
        bind_Write _ _ _ _ (by first | omega | (simp only [FVec.size_set]; omega))]
      simp only [FeatureWriter.Skip, Option.some.injEq, FeatureWriter.mk.injEq]
      exact ⟨_, ⟨rfl, by first | trivial | omega⟩, by simp⟩
    | some nx =>
      dsimp only
      rw [bind_Write _ _ _ _ (by omega), bind_Write _ _ _ _ (by first | omega | (simp only [FVec.size_set]; omega)),
        bind_Write _ _ _ _ (by first | omega | (simp only [FVec.size_set]; omega)), bind_Write _ _ _ _ (by first | omega | (simp only [FVec.size_set]; omega)),
        bind_Write _ _ _ _ (by first | omega | (simp only [FVec.size_set]; omega)), Write_some rfl _ (by first | omega | (simp only [FVec.size_set]; omega))]
      simp only [Option.some.injEq, FeatureWriter.mk.injEq]
      exact ⟨_, ⟨rfl, by first | trivial | omega⟩, by simp⟩

/-! Characterization of the same-class selection fold. -/

/-- Integer words-per-occurrence quotient, the quantity the Go comparison
`stat.Words/stat.Count` computes (truncating integer division). -/
def ratio (s : TextStat) : Nat := s.Words / s.Count

/-- Exact words-per-occurrence ratio, the quantity named by the spec when
read as a real-valued average. -/
def specRatio (s : TextStat) : ℚ := (s.Words : ℚ) / (s.Count : ℚ)

/-- Total version of the selection fold over the candidate statistics
(the classes of the chunk that have a map entry, in order). -/
def pickTotal : Option TextStat → List TextStat → Option TextStat
  | best, [] => best
  | none, s :: ss => pickTotal (some s) ss
  | some b, s :: ss => pickTotal (some (if ratio b < ratio s then s else b)) ss

theorem findBestStat_eq_pickTotal (m : String → Option TextStat)
    (hm : ∀ c s, m c = some s → s.Count ≠ 0) :
    ∀ (cls : List String) (acc : Option TextStat),
      (∀ a, acc = some a → a.Count ≠ 0) →
      findBestStat m cls acc = some (pickTotal acc (cls.filterMap m)) := by
  intro cls
  induction cls with
  | nil => intro acc hacc; cases acc <;> rfl
  | cons c cs ih =>
    intro acc hacc
    simp only [findBestStat, List.filterMap_cons]
    cases hc : m c with
    | none => exact ih acc hacc
    | some stat =>
      cases acc with
      | none =>
        simp only [pickTotal]
        refine ih (some stat) ?_
        intro a ha
        injection ha with ha2
        subst ha2
        exact hm c stat hc
      | some b =>
        have hs : stat.Count ≠ 0 := hm c stat hc
        have hb : b.Count ≠ 0 := hacc b rfl
        simp only [goDiv, if_neg hs, if_neg hb, Option.some_bind,
          Option.bind_eq_bind, pickTotal]
        have : (if b.Words / b.Count < stat.Words / stat.Count then some stat
            else some b) = some (if ratio b < ratio stat then stat else b) := by
          simp only [ratio]
          split <;> simp_all
        rw [this]
        refine ih _ ?_
        intro a ha
        split at ha
        · injection ha with ha2
          subst ha2
          exact hm c stat hc
        · injection ha with ha2
          subst ha2
          exact hb

theorem pickTotal_some_char (l : List TextStat) :
    ∀ a : TextStat, ∃ b, pickTotal (some a) l = some b ∧
      ratio a ≤ ratio b ∧ (∀ s ∈ l, ratio s ≤ ratio b) ∧
      (b = a ∨ ∃ j, j < l.length ∧ l.get? j = some b ∧ ratio a < ratio b ∧
        ∀ k, k < j → ∀ s, l.get? k = some s → ratio s < ratio b) := by
  induction l with
  | nil =>
    intro a
    exact ⟨a, rfl, le_refl _, by simp, Or.inl rfl⟩
  | cons s ss ih =>
    intro a
    obtain ⟨b, hb, hab, hall, hfirst⟩ := ih (if ratio a < ratio s then s else a)
    refine ⟨b, hb, ?_, ?_, ?_⟩
    · exact le_trans (by split <;> omega) hab
    · intro t ht
      rcases List.mem_cons.mp ht with rfl | ht
      · exact le_trans (by split <;> omega) hab
      · exact hall t ht
    · rcases hfirst with rfl | ⟨j, hj, hget, hlt, hpre⟩
      · by_cases hc : ratio a < ratio s
        · rw [if_pos hc]
          refine Or.inr ⟨0, by simp, ?_, ?_, ?_⟩
          · simp only [if_pos hc, List.get?]
          · simpa [if_pos hc] using hc
          · intro k hk; omega
        · rw [if_neg hc]
          exact Or.inl rfl
      · refine Or.inr ⟨j + 1, by simpa using hj, by simpa using hget, ?_, ?_⟩
        · exact lt_of_le_of_lt (by split <;> omega) hlt
        · intro k hk t hget2
          cases k with
          | zero =>
            simp only [List.get?, Option.some.injEq] at hget2
            subst hget2
            exact lt_of_le_of_lt (by split <;> omega) hlt
          | succ k2 =>
            exact hpre k2 (by omega) t (by simpa using hget2)

theorem pickTotal_none_char (l : List TextStat) (hne : l ≠ []) :
    ∃ b j, pickTotal none l = some b ∧ j < l.length ∧ l.get? j = some b ∧
      (∀ s ∈ l, ratio s ≤ ratio b) ∧
      ∀ k, k < j → ∀ s, l.get? k = some s → ratio s < ratio b := by
  cases l with
  | nil => exact absurd rfl hne
  | cons s ss =>
    obtain ⟨b, hb, hab, hall, hfirst⟩ := pickTotal_some_char ss s
    have hrun : pickTotal none (s :: ss) = some b := hb
    rcases hfirst with rfl | ⟨j, hj, hget, hlt, hpre⟩
    · refine ⟨b, 0, hrun, by simp, by simp [List.get?], ?_, ?_⟩
      · intro t ht
        rcases List.mem_cons.mp ht with rfl | ht
        · exact le_refl _
        · exact hall t ht
      · intro k hk; omega
    · refine ⟨b, j + 1, hrun, by simpa using hj, by simpa using hget, ?_, ?_⟩
      · intro t ht
        rcases List.mem_cons.mp ht with rfl | ht
        · exact le_of_lt hlt
        · exact hall t ht
      · intro k hk t hget2
        cases k with
        | zero =>
          simp only [List.get?, Option.some.injEq] at hget2
          subst hget2
          exact hlt
        | succ k2 =>
          exact hpre k2 (by omega) t (by simpa using hget2)

theorem classStat_advances (chunk : Chunk) (m : String → Option TextStat)
    (hm : ∀ c s, m c = some s → s.Count ≠ 0) :
    advances (chunkWriteClassStat · chunk m) 3 := by
  intro fw v h hroom
  obtain ⟨f, p⟩ := fw
  simp only at h
  subst h
  simp only at hroom
  simp only [chunkWriteClassStat, Option.bind_eq_bind, Option.pure_def]
  rw [findBestStat_eq_pickTotal m hm chunk.Classes none (by simp)]
  simp only [Option.some_bind]
  cases hbest : pickTotal none (chunk.Classes.filterMap m) with
  | none =>
    dsimp only
    rw [bind_Write _ _ _ _ (by omega)]
    simp only [FeatureWriter.Skip, Option.some.injEq, FeatureWriter.mk.injEq]
    exact ⟨_, ⟨rfl, by first | trivial | omega⟩, by simp⟩
  | some b =>
    dsimp only
    rw [bind_Write _ _ _ _ (by omega),
      bind_Write _ _ _ _ (by first | omega | (simp only [FVec.size_set]; omega)),
      Write_some rfl _ (by first | omega | (simp only [FVec.size_set]; omega))]
    simp only [Option.some.injEq, FeatureWriter.mk.injEq]
    exact ⟨_, ⟨rfl, by first | trivial | omega⟩, by simp⟩

theorem clusterStat_advances (chunk : Chunk) (clusters : Nat → Option TextStat) :
    advances (chunkWriteClusterStat · chunk clusters) 5 := by
  intro fw v h hroom
  obtain ⟨f, p⟩ := fw
  simp only at h
  subst h
  simp only at hroom
  simp only [chunkWriteClusterStat, Option.bind_eq_bind, Option.pure_def]
  cases hc : clusters chunk.id with
  | none =>
    dsimp only
    simp only [FeatureWriter.Skip, Option.some.injEq, FeatureWriter.mk.injEq]
    exact ⟨_, ⟨rfl, by first | trivial | omega⟩, by simp⟩
  | some stat =>
    dsimp only
    rw [bind_Write _ _ _ _ (by omega),
      bind_Write _ _ _ _ (by first | omega | (simp only [FVec.size_set]; omega)),
      bind_Write _ _ _ _ (by first | omega | (simp only [FVec.size_set]; omega)),
      bind_Write _ _ _ _ (by first | omega | (simp only [FVec.size_set]; omega)),
      Write_some rfl _ (by first | omega | (simp only [FVec.size_set]; omega))]
    simp only [Option.some.injEq, FeatureWriter.mk.injEq]
    exact ⟨_, ⟨rfl, by first | trivial | omega⟩, by simp⟩

/-! Spec-level offset tables, proved equal to the Go map reads. -/

/-- Element-type offset as the encoder actually computes it for every tag:
recognized tags get their table offset, and an unrecognized tag falls back
to offset 0 (the Go zero value of a missing map key), the paragraph slot. -/
def specElementOffset (tag : String) : Nat :=
  if tag = "p" then 0
  else if tag = "a" then 1
  else if tag = "div" then 2
  else if tag = "h1" ∨ tag = "h2" ∨ tag = "h3" ∨ tag = "h4" ∨ tag = "h5" ∨
    tag = "h6" then 3
  else 0

/-- Parent-type offset as the encoder actually computes it: recognized
parent tags get their table offset, and an unrecognized parent tag falls
back to offset 0, the paragraph slot. -/
def specParentOffset (tag : String) : Nat :=
  if tag = "p" then 0
  else if tag = "span" then 1
  else if tag = "div" then 2
  else if tag = "li" then 3
  else 0

theorem mapGet_elementTypes_eq (s : String) :
    mapGet elementTypes s = specElementOffset s := by
  simp only [mapGet, elementTypes, List.lookup, specElementOffset]
  repeat' split
  all_goals simp_all

theorem mapGet_parentTypes_eq (s : String) :
    mapGet parentTypes s = specParentOffset s := by
  simp only [mapGet, parentTypes, List.lookup, specParentOffset]
  repeat' split
  all_goals simp_all

/-! Concrete inputs used by witnesses and counterexamples. -/

/-- Example chunk with tag h2 and no parent. -/
def cH2 : Chunk := ⟨1, "h2", none, [], 0, 2, 1, 0, none, none, 0, []⟩

/-- Example chunk with tag div and an unrecognized parent tag td. -/
def cTdChild : Chunk := ⟨2, "div", some "td", [], 0, 5, 1, 0, none, none, 0, []⟩

/-- Example chunk with an unrecognized tag. -/
def cTable : Chunk := ⟨3, "table", none, [], 0, 1, 1, 0, none, none, 0, []⟩

/-- Example paragraph chunk, member of the one-chunk example cluster. -/
def cP : Chunk := ⟨4, "p", none, [], 0, 3, 1, 0, none, none, 0, []⟩

/-- Example chunk that belongs to no cluster. -/
def cStray : Chunk := ⟨5, "p", none, [], 0, 2, 1, 0, none, none, 0, []⟩

/-- Example one-chunk cluster with a parallel one-score sequence. -/
def clusterEx : Cluster := ⟨[cP], [5], 5⟩

/-- Four chunks forming the example 4-chunk cluster. -/
def c4a : Chunk := ⟨11, "p", none, [], 0, 3, 1, 0, none, none, 0, []⟩

/-- Second chunk of the example 4-chunk cluster. -/
def c4b : Chunk := ⟨12, "p", none, [], 0, 3, 1, 0, none, none, 0, []⟩

/-- Third chunk of the example 4-chunk cluster. -/
def c4c : Chunk := ⟨13, "p", none, [], 0, 3, 1, 0, none, none, 0, []⟩

/-- Fourth chunk of the example 4-chunk cluster. -/
def c4d : Chunk := ⟨14, "p", none, [], 0, 3, 1, 0, none, none, 0, []⟩

/-- Example 4-chunk cluster with scores 1, 2, 3, 4. -/
def clusterEx4 : Cluster := ⟨[c4a, c4b, c4c, c4d], [1, 2, 3, 4], 10⟩

/-- Class statistic with exact ratio 10/3 (integer quotient 3). -/
def statA : TextStat := ⟨10, 4, 3⟩

/-- Class statistic with exact ratio 7/2 (integer quotient 3). -/
def statB : TextStat := ⟨7, 2, 2⟩

/-- Example class-statistics map with entries for classes first and
second. -/
def mEx : String → Option TextStat := fun c =>
  if c = "first" then some statA
  else if c = "second" then some statB
  else none

/-- Example chunk carrying the two classes of `mEx` in order. -/
def cClassy : Chunk :=
  ⟨6, "p", none, [], 0, 3, 1, 0, none, none, 0, ["first", "second"]⟩

/-! Claim C5. -/

/-- C5: Assign on a writer whose bound vector exists while the cursor
differs from its capacity fails fatally (none); on first use (nil vector)
or when the cursor equals the capacity it succeeds, binds the new vector
and resets the cursor to 0. -/
theorem assign_partial_reuse_guard (fw : FeatureWriter) (g : FVec) :
    (fw.Assign g = none ↔ ∃ v, fw.feature = some v ∧ fw.Pos ≠ v.size) ∧
    ((fw.feature = none ∨ ∃ v, fw.feature = some v ∧ fw.Pos = v.size) →
      fw.Assign g = some ⟨some g, 0⟩) := by
  obtain ⟨f, p⟩ := fw
  cases f with
  | none => simp [FeatureWriter.Assign]
  | some v =>
    constructor
    · constructor
      · intro hn
        refine ⟨v, rfl, ?_⟩
        intro heq
        simp only at heq
        simp [FeatureWriter.Assign, heq] at hn
      · rintro ⟨w, hw, hne⟩
        injection hw with hw2
        subst hw2
        simp only at hne
        simp [FeatureWriter.Assign, hne]
    · rintro (hnone | ⟨w, hw, heq⟩)
      · exact absurd hnone (by simp)
      · injection hw with hw2
        subst hw2
        simp only at heq
        simp [FeatureWriter.Assign, heq]

/-- C5 witness: a writer stopped at cursor 5 of a 36-slot vector makes
Assign fail; a fresh writer accepts Assign and ends at cursor 0. -/
theorem assign_partial_reuse_guard_witness :
    (FeatureWriter.Assign ⟨some ⟨36, fun _ => 0⟩, 5⟩ ⟨36, fun _ => 0⟩
      = none) ∧
    (FeatureWriter.Assign ⟨none, 0⟩ ⟨36, fun _ => 0⟩
      = some ⟨some ⟨36, fun _ => 0⟩, 0⟩) :=
  ⟨(assign_partial_reuse_guard ⟨some ⟨36, fun _ => 0⟩, 5⟩ ⟨36, fun _ => 0⟩).1.mpr
      ⟨⟨36, fun _ => 0⟩, rfl, by decide⟩,
    (assign_partial_reuse_guard ⟨none, 0⟩ ⟨36, fun _ => 0⟩).2 (Or.inl rfl)⟩

/-! Claim C3. -/

/-- C3 counterexample: for a chunk whose tag is the unrecognized "table",
the element-type encoding sets slot 0 (the paragraph slot) to 1, so the
element-type slots are not all zero as the claim states. -/
theorem element_type_unrecognized_sets_slot0 :
    slotOf (chunkWriteElementType (freshWriter chunkFeatureCap) cTable) 0
        = some 1 ∧
      slotOf (chunkWriteElementType (freshWriter chunkFeatureCap) cTable) 0
        ≠ some 0 := by
  constructor
  · rfl
  · decide

/-- C3 amended: the element-type encoding is a one-hot that sets exactly
the slot at `specElementOffset` of the tag to 1 and leaves every other
slot unchanged; recognized tags p, a, div, h1..h6 get offsets 0, 1, 2, 3,
while an unrecognized tag falls back to offset 0 and is therefore encoded
like a paragraph, not as all-zero. -/
theorem element_type_one_hot (fw : FeatureWriter) (v : FVec) (chunk : Chunk)
    (hv : fw.feature = some v) (hroom : fw.Pos + 4 ≤ v.size) :
    ∃ v2, chunkWriteElementType fw chunk = some ⟨some v2, fw.Pos + 4⟩ ∧
      v2.data (fw.Pos + specElementOffset chunk.Data) = 1 ∧
      ∀ j, j ≠ fw.Pos + specElementOffset chunk.Data → v2.data j = v.data j := by
  have hle : specElementOffset chunk.Data ≤ 3 := by
    rw [← mapGet_elementTypes_eq]
    exact mapGet_elementTypes_le chunk.Data
  refine ⟨v.set (fw.Pos + specElementOffset chunk.Data) (boolVal true),
    ?_, by simp [boolVal], ?_⟩
  · simp only [chunkWriteElementType, mapGet_elementTypes_eq]
    rw [WriteAt_some hv (boolVal true) (specElementOffset chunk.Data) (by omega)]
    simp [FeatureWriter.Skip]
  · intro j hj
    simp [FVec.data_set, hj]

/-- C3 witness: for the h2 chunk the one-hot offset is 3 (the heading
slot), the slot holds 1 and slot 0 keeps its zero default. -/
theorem element_type_one_hot_witness :
    ∃ v2, chunkWriteElementType (freshWriter chunkFeatureCap) cH2
        = some ⟨some v2, (freshWriter chunkFeatureCap).Pos + 4⟩ ∧
      v2.data ((freshWriter chunkFeatureCap).Pos + specElementOffset cH2.Data)
        = 1 ∧
      ∀ j, j ≠ (freshWriter chunkFeatureCap).Pos + specElementOffset cH2.Data →
        v2.data j = (⟨chunkFeatureCap, fun _ => 0⟩ : FVec).data j :=
  element_type_one_hot (freshWriter chunkFeatureCap)
    ⟨chunkFeatureCap, fun _ => 0⟩ cH2 rfl (by decide)

/-! Claim C4. -/

/-- C4 counterexample: for a chunk whose parent tag is the unrecognized
"td", the parent-type encoding sets slot 0 (the paragraph slot) to 1, so
the parent-type slots are not all zero as the claim states. -/
theorem parent_type_unmatched_sets_slot0 :
    slotOf (chunkWriteParentType (freshWriter chunkFeatureCap) cTdChild) 0
        = some 1 ∧
      slotOf (chunkWriteParentType (freshWriter chunkFeatureCap) cTdChild) 0
        ≠ some 0 := by
  constructor
  · rfl
  · decide

/-- C4 amended: with no parent the parent-type encoding leaves the vector
untouched (all four slots stay zero); with a parent it is a one-hot that
sets exactly the slot at `specParentOffset` of the parent tag, where
recognized tags p, span, div, li get offsets 0, 1, 2, 3 and an
unrecognized parent tag falls back to offset 0 (the paragraph slot), not
to all-zero. -/
theorem parent_type_one_hot (fw : FeatureWriter) (v : FVec) (chunk : Chunk)
    (hv : fw.feature = some v) (hroom : fw.Pos + 4 ≤ v.size) :
    (chunk.ParentData = none →
      chunkWriteParentType fw chunk = some ⟨some v, fw.Pos + 4⟩) ∧
    (∀ par, chunk.ParentData = some par →
      ∃ v2, chunkWriteParentType fw chunk = some ⟨some v2, fw.Pos + 4⟩ ∧
        v2.data (fw.Pos + specParentOffset par) = 1 ∧
        ∀ j, j ≠ fw.Pos + specParentOffset par → v2.data j = v.data j) := by
  constructor
  · intro hp
    simp [chunkWriteParentType, hp, FeatureWriter.Skip, hv]
  · intro par hp
    have hle : specParentOffset par ≤ 3 := by
      rw [← mapGet_parentTypes_eq]
      exact mapGet_parentTypes_le par
    refine ⟨v.set (fw.Pos + specParentOffset par) (boolVal true),
      ?_, by simp [boolVal], ?_⟩
    · simp only [chunkWriteParentType, hp, mapGet_parentTypes_eq]
      rw [WriteAt_some hv (boolVal true) (specParentOffset par) (by omega)]
      simp [FeatureWriter.Skip]
    · intro j hj
      simp [FVec.data_set, hj]

/-- C4 witness: the td-parent chunk takes the unrecognized-parent branch
with offset 0, and a no-parent chunk leaves the vector untouched. -/
theorem parent_type_one_hot_witness :
    (chunkWriteParentType (freshWriter chunkFeatureCap) cH2
      = some ⟨some ⟨chunkFeatureCap, fun _ => 0⟩,
          (freshWriter chunkFeatureCap).Pos + 4⟩) ∧
    ∃ v2, chunkWriteParentType (freshWriter chunkFeatureCap) cTdChild
        = some ⟨some v2, (freshWriter chunkFeatureCap).Pos + 4⟩ ∧
      v2.data ((freshWriter chunkFeatureCap).Pos + specParentOffset "td")
        = 1 ∧
      ∀ j, j ≠ (freshWriter chunkFeatureCap).Pos + specParentOffset "td" →
        v2.data j = (⟨chunkFeatureCap, fun _ => 0⟩ : FVec).data j :=
  ⟨(parent_type_one_hot (freshWriter chunkFeatureCap)
      ⟨chunkFeatureCap, fun _ => 0⟩ cH2 rfl (by decide)).1 rfl,
    (parent_type_one_hot (freshWriter chunkFeatureCap)
      ⟨chunkFeatureCap, fun _ => 0⟩ cTdChild rfl (by decide)).2 "td" rfl⟩

/-! Claim C7. -/

/-- C7: with zero siblings the encoder writes 0 to the four count slots
and leaves the three fraction slots untouched at their zero default (the
division branch is never taken); with a positive total the three fraction
slots hold each count divided by the total. -/
theorem sibling_fraction_guard (fw : FeatureWriter) (v : FVec) (chunk : Chunk)
    (hv : fw.feature = some v) (hroom : fw.Pos + 7 ≤ v.size) :
    (chunk.SiblingTypes = [] →
      ∃ v2, chunkWriteSiblingTypes fw chunk = some ⟨some v2, fw.Pos + 7⟩ ∧
        v2.data fw.Pos = 0 ∧ v2.data (fw.Pos + 1) = 0 ∧
        v2.data (fw.Pos + 2) = 0 ∧ v2.data (fw.Pos + 3) = 0 ∧
        v2.data (fw.Pos + 4) = v.data (fw.Pos + 4) ∧
        v2.data (fw.Pos + 5) = v.data (fw.Pos + 5) ∧
        v2.data (fw.Pos + 6) = v.data (fw.Pos + 6)) ∧
    (0 < chunk.SiblingTypes.length →
      ∃ v2, chunkWriteSiblingTypes fw chunk = some ⟨some v2, fw.Pos + 7⟩ ∧
        v2.data fw.Pos = (chunk.SiblingTypes.length : ℚ) ∧
        v2.data (fw.Pos + 4)
          = (chunk.SiblingTypes.count "a" : ℚ) / (chunk.SiblingTypes.length : ℚ) ∧
        v2.data (fw.Pos + 5)
          = (chunk.SiblingTypes.count "p" : ℚ) / (chunk.SiblingTypes.length : ℚ) ∧
        v2.data (fw.Pos + 6)
          = (chunk.SiblingTypes.count "img" : ℚ) / (chunk.SiblingTypes.length : ℚ)) := by
  obtain ⟨f, p⟩ := fw
  simp only at hv
  subst hv
  simp only at hroom
  constructor
  · intro hs
    simp only [chunkWriteSiblingTypes, hs, List.length_nil, List.count_nil,
      Option.bind_eq_bind, Option.pure_def]
    rw [bind_Write _ _ _ _ (by omega),
      bind_Write _ _ _ _ (by first | omega | (simp only [FVec.size_set]; omega)),
      bind_Write _ _ _ _ (by first | omega | (simp only [FVec.size_set]; omega)),
      bind_Write _ _ _ _ (by first | omega | (simp only [FVec.size_set]; omega)),
      if_neg (lt_irrefl 0)]
    simp only [FeatureWriter.Skip, Option.some.injEq, FeatureWriter.mk.injEq]
    exact ⟨_, ⟨rfl, by first | trivial | omega⟩,
      by simp [FVec.data_set, Nat.add_assoc],
      by simp [FVec.data_set, Nat.add_assoc],
      by simp [FVec.data_set, Nat.add_assoc],
      by simp [FVec.data_set, Nat.add_assoc],
      by simp [FVec.data_set, Nat.add_assoc],
      by simp [FVec.data_set, Nat.add_assoc],
      by simp [FVec.data_set, Nat.add_assoc]⟩
  · intro hs
    simp only [chunkWriteSiblingTypes, Option.bind_eq_bind, Option.pure_def]
    rw [bind_Write _ _ _ _ (by omega),
      bind_Write _ _ _ _ (by first | omega | (simp only [FVec.size_set]; omega)),
      bind_Write _ _ _ _ (by first | omega | (simp only [FVec.size_set]; omega)),
      bind_Write _ _ _ _ (by first | omega | (simp only [FVec.size_set]; omega)),
      if_pos hs,
      bind_Write _ _ _ _ (by first | omega | (simp only [FVec.size_set]; omega)),
      bind_Write _ _ _ _ (by first | omega | (simp only [FVec.size_set]; omega)),
      Write_some rfl _ (by first | omega | (simp only [FVec.size_set]; omega))]
    simp only [Option.some.injEq, FeatureWriter.mk.injEq]
    exact ⟨_, ⟨rfl, by first | trivial | omega⟩,
      by simp [FVec.data_set, Nat.add_assoc],
      by simp [FVec.data_set, Nat.add_assoc],
      by simp [FVec.data_set, Nat.add_assoc],
      by simp [FVec.data_set, Nat.add_assoc]⟩

/-- C7 witness: a chunk with no siblings at all leaves the fraction slots
at zero, and one with two siblings, one anchor, takes the division
branch. -/
theorem sibling_fraction_guard_witness :
    (∃ v2, chunkWriteSiblingTypes (freshWriter chunkFeatureCap) cP
        = some ⟨some v2, (freshWriter chunkFeatureCap).Pos + 7⟩ ∧
      v2.data (freshWriter chunkFeatureCap).Pos = 0 ∧
      v2.data ((freshWriter chunkFeatureCap).Pos + 1) = 0 ∧
      v2.data ((freshWriter chunkFeatureCap).Pos + 2) = 0 ∧
      v2.data ((freshWriter chunkFeatureCap).Pos + 3) = 0 ∧
      v2.data ((freshWriter chunkFeatureCap).Pos + 4)
        = (⟨chunkFeatureCap, fun _ => 0⟩ : FVec).data
            ((freshWriter chunkFeatureCap).Pos + 4) ∧
      v2.data ((freshWriter chunkFeatureCap).Pos + 5)
        = (⟨chunkFeatureCap, fun _ => 0⟩ : FVec).data
            ((freshWriter chunkFeatureCap).Pos + 5) ∧
      v2.data ((freshWriter chunkFeatureCap).Pos + 6)
        = (⟨chunkFeatureCap, fun _ => 0⟩ : FVec).data
            ((freshWriter chunkFeatureCap).Pos + 6)) :=
  (sibling_fraction_guard (freshWriter chunkFeatureCap)
    ⟨chunkFeatureCap, fun _ => 0⟩ cP rfl (by decide)).1 rfl

/-! Claim C9. -/

/-- C9: the title-similarity slot receives the similarity value exactly
for the heading tags h1, h2, h3; for every other tag the slot is skipped
and the vector is untouched, so the slot keeps its zero default whatever
the title is. -/
theorem title_similarity_heading_only (fw : FeatureWriter) (v : FVec)
    (chunk : Chunk) (sim : ℚ) (hv : fw.feature = some v)
    (hroom : fw.Pos + 1 ≤ v.size) :
    ((chunk.Data = "h1" ∨ chunk.Data = "h2" ∨ chunk.Data = "h3") →
      ∃ v2, boostWriteTitleSimilarity fw chunk sim
          = some ⟨some v2, fw.Pos + 1⟩ ∧
        v2.data fw.Pos = sim ∧ ∀ j, j ≠ fw.Pos → v2.data j = v.data j) ∧
    (¬(chunk.Data = "h1" ∨ chunk.Data = "h2" ∨ chunk.Data = "h3") →
      boostWriteTitleSimilarity fw chunk sim = some ⟨some v, fw.Pos + 1⟩) := by
  constructor
  · intro hh
    refine ⟨v.set fw.Pos sim, ?_, by simp, ?_⟩
    · simp only [boostWriteTitleSimilarity, if_pos hh]
      exact Write_some hv sim (by omega)
    · intro j hj
      simp [FVec.data_set, hj]
  · intro hh
    simp only [boostWriteTitleSimilarity, if_neg hh, FeatureWriter.Skip, hv,
      Option.pure_def]

/-- C9 witness: the h2 chunk receives the similarity value 1/2; the
paragraph chunk leaves the vector untouched. -/
theorem title_similarity_heading_only_witness :
    (∃ v2, boostWriteTitleSimilarity (freshWriter boostFeatureCap) cH2 (1 / 2)
        = some ⟨some v2, (freshWriter boostFeatureCap).Pos + 1⟩ ∧
      v2.data (freshWriter boostFeatureCap).Pos = 1 / 2 ∧
      ∀ j, j ≠ (freshWriter boostFeatureCap).Pos →
        v2.data j = (⟨boostFeatureCap, fun _ => 0⟩ : FVec).data j) ∧
    boostWriteTitleSimilarity (freshWriter boostFeatureCap) cP (1 / 2)
      = some ⟨some ⟨boostFeatureCap, fun _ => 0⟩,
          (freshWriter boostFeatureCap).Pos + 1⟩ :=
  ⟨(title_similarity_heading_only (freshWriter boostFeatureCap)
      ⟨boostFeatureCap, fun _ => 0⟩ cH2 (1 / 2) rfl (by decide)).1
      (Or.inr (Or.inl rfl)),
    (title_similarity_heading_only (freshWriter boostFeatureCap)
      ⟨boostFeatureCap, fun _ => 0⟩ cP (1 / 2) rfl (by decide)).2
      (by decide)⟩

/-! Claim C2. -/

/-- C2 counterexample: the element-type and parent-type sub-encodings each
advance the cursor by 4 slots, not the 5 the claim lists. -/
theorem element_and_parent_width_is_four :
    posOf (chunkWriteElementType (freshWriter chunkFeatureCap) cH2) = some 4 ∧
    posOf (chunkWriteElementType (freshWriter chunkFeatureCap) cH2) ≠ some 5 ∧
    posOf (chunkWriteParentType (freshWriter chunkFeatureCap) cH2) = some 4 ∧
    posOf (chunkWriteParentType (freshWriter chunkFeatureCap) cH2) ≠ some 5 :=
  ⟨rfl, by decide, rfl, by decide⟩

/-- C2 amended: the eight chunk sub-encodings consume 4, 4, 7, 4, 3, 6, 3
and 5 slots respectively (element type and parent type take 4 slots each,
not 5), on every branch, and these widths sum to exactly the 36-slot
capacity, leaving no headroom. -/
theorem sub_encoder_slot_counts (chunk : Chunk) (m : String → Option TextStat)
    (clusters : Nat → Option TextStat)
    (hm : ∀ c s, m c = some s → s.Count ≠ 0) :
    advances (chunkWriteElementType · chunk) 4 ∧
    advances (chunkWriteParentType · chunk) 4 ∧
    advances (chunkWriteSiblingTypes · chunk) 7 ∧
    advances (chunkWriteAncestors · chunk) 4 ∧
    advances (chunkWriteTextStat · chunk) 3 ∧
    advances (chunkWriteTextStatSiblings · chunk) 6 ∧
    advances (chunkWriteClassStat · chunk m) 3 ∧
    advances (chunkWriteClusterStat · chunk clusters) 5 ∧
    4 + 4 + 7 + 4 + 3 + 6 + 3 + 5 = chunkFeatureCap :=
  ⟨elementType_advances chunk, parentType_advances chunk,
    siblingTypes_advances chunk, ancestors_advances chunk,
    textStat_advances chunk, textStatSiblings_advances chunk,
    classStat_advances chunk m hm, clusterStat_advances chunk clusters, rfl⟩

/-- C2 witness: the widths hold at a concrete chunk and empty maps, whose
class map trivially satisfies the nonzero-count hypothesis. -/
theorem sub_encoder_slot_counts_witness :
    advances (chunkWriteClassStat · cH2 (fun _ => none)) 3 ∧
    4 + 4 + 7 + 4 + 3 + 6 + 3 + 5 = chunkFeatureCap :=
  ⟨(sub_encoder_slot_counts cH2 (fun _ => none) (fun _ => none)
      (fun _ _ h => nomatch h)).2.2.2.2.2.2.1,
    (sub_encoder_slot_counts cH2 (fun _ => none) (fun _ => none)
      (fun _ _ h => nomatch h)).2.2.2.2.2.2.2.2⟩

/-! Claim C10. -/

theorem advances_seq {step1 step2 : FeatureWriter → Option FeatureWriter}
    {w1 w2 : Nat} (h1 : advances step1 w1) (h2 : advances step2 w2) :
    advances (fun fw => (step1 fw).bind step2) (w1 + w2) := by
  intro fw v h hroom
  obtain ⟨v1, e1, s1⟩ := h1 fw v h (by omega)
  obtain ⟨v2, e2, s2⟩ := h2 ⟨some v1, fw.Pos + w1⟩ v1 rfl
    (by show fw.Pos + w1 + w2 ≤ v1.size; omega)
  refine ⟨v2, ?_, s2.trans s1⟩
  show (step1 fw).bind step2 = some ⟨some v2, fw.Pos + (w1 + w2)⟩
  rw [e1]
  simp only [Option.some_bind]
  rw [e2]
  simp only [Option.some.injEq, FeatureWriter.mk.injEq, true_and]
  show fw.Pos + w1 + w2 = fw.Pos + (w1 + w2)
  omega

/-- C10: running the eight chunk sub-encoders in their fixed order on a
writer freshly bound to a 36-slot vector succeeds on every combination of
branches, advances the cursor by exactly 36 = capacity, and a subsequent
Assign on the same writer succeeds. -/
theorem chunk_encoding_fills_capacity (chunk : Chunk)
    (m : String → Option TextStat) (clusters : Nat → Option TextStat)
    (hm : ∀ c s, m c = some s → s.Count ≠ 0) (fw : FeatureWriter) (v : FVec)
    (hv : fw.feature = some v) (hsize : v.size = chunkFeatureCap)
    (hpos : fw.Pos = 0) :
    ∃ fw2 v2, writeChunkFeatures fw chunk m clusters = some fw2 ∧
      fw2.Pos = chunkFeatureCap ∧ fw2.feature = some v2 ∧
      v2.size = chunkFeatureCap ∧
      ∀ g, fw2.Assign g = some ⟨some g, 0⟩ := by
  simp only [chunkFeatureCap] at hsize
  have hall : advances (fun fw => writeChunkFeatures fw chunk m clusters)
      (4 + (4 + (7 + (4 + (3 + (6 + (3 + 5))))))) :=
    advances_seq (elementType_advances chunk)
      (advances_seq (parentType_advances chunk)
        (advances_seq (siblingTypes_advances chunk)
          (advances_seq (ancestors_advances chunk)
            (advances_seq (textStat_advances chunk)
              (advances_seq (textStatSiblings_advances chunk)
                (advances_seq (classStat_advances chunk m hm)
                  (clusterStat_advances chunk clusters)))))))
  obtain ⟨v2, e2, s2⟩ := hall fw v hv (by omega)
  refine ⟨⟨some v2, fw.Pos + (4 + (4 + (7 + (4 + (3 + (6 + (3 + 5)))))))⟩, v2,
    e2, by simp only [chunkFeatureCap]; omega, rfl,
    by simp only [chunkFeatureCap]; omega, ?_⟩
  intro g
  have hps : fw.Pos + (4 + (4 + (7 + (4 + (3 + (6 + (3 + 5))))))) = v2.size := by
    omega
  simp [FeatureWriter.Assign, hps]

/-- C10 witness: a concrete chunk with empty maps fills the fresh 36-slot
vector completely and the writer accepts the next Assign. -/
theorem chunk_encoding_fills_capacity_witness :
    ∃ fw2 v2, writeChunkFeatures (freshWriter chunkFeatureCap) cH2
        (fun _ => none) (fun _ => none) = some fw2 ∧
      fw2.Pos = chunkFeatureCap ∧ fw2.feature = some v2 ∧
      v2.size = chunkFeatureCap ∧
      ∀ g, fw2.Assign g = some ⟨some g, 0⟩ :=
  chunk_encoding_fills_capacity cH2 (fun _ => none) (fun _ => none)
    (fun _ _ h => nomatch h) (freshWriter chunkFeatureCap)
    ⟨chunkFeatureCap, fun _ => 0⟩ rfl rfl rfl

/-! Claim C6. -/

/-- C6: for a chunk found at position i of its cluster (score sequence of
equal length), the boost cluster encoding writes the aggregate score, the
own score, the previous score when 0 < i (else the sentinel -10), and the
score at i+1 when i < length - 2 (else the sentinel -10). -/
theorem cluster_score_context (fw : FeatureWriter) (v : FVec) (chunk : Chunk)
    (cl : Cluster) (i : Nat) (hv : fw.feature = some v)
    (hroom : fw.Pos + 4 ≤ v.size)
    (hlen : cl.Scores.length = cl.Chunks.length)
    (hfind : cl.Chunks.findIdx (fun c => c.id == chunk.id) = i)
    (hi : i < cl.Chunks.length) :
    ∃ v2, boostWriteCluster fw chunk cl = some ⟨some v2, fw.Pos + 4⟩ ∧
      v2.data fw.Pos = cl.score ∧
      cl.Scores.get? i = some (v2.data (fw.Pos + 1)) ∧
      (0 < i → cl.Scores.get? (i - 1) = some (v2.data (fw.Pos + 2))) ∧
      (i = 0 → v2.data (fw.Pos + 2) = -10) ∧
      (i < cl.Chunks.length - 2 →
        cl.Scores.get? (i + 1) = some (v2.data (fw.Pos + 3))) ∧
      (¬ i < cl.Chunks.length - 2 → v2.data (fw.Pos + 3) = -10) := by
  obtain ⟨f, p⟩ := fw
  simp only at hv
  subst hv
  simp only at hroom
  have hsi : i < cl.Scores.length := by omega
  have hs : cl.Scores.get? i = some (cl.Scores.get ⟨i, hsi⟩) :=
    List.get?_eq_get hsi
  simp only [boostWriteCluster, Option.bind_eq_bind, Option.pure_def, hfind]
  rw [bind_Write _ _ _ _ (by omega), hs]
  simp only [Option.some_bind]
  rw [bind_Write _ _ _ _ (by first | omega | (simp only [FVec.size_set]; omega))]
  by_cases h0 : 0 < i
  · rw [if_pos h0]
    have hsp : cl.Scores.get? (i - 1)
        = some (cl.Scores.get ⟨i - 1, by omega⟩) := List.get?_eq_get (by omega)
    rw [hsp]
    simp only [Option.some_bind]
    rw [bind_Write _ _ _ _ (by first | omega | (simp only [FVec.size_set]; omega))]
    by_cases h2 : i < cl.Chunks.length - 2
    · rw [if_pos h2]
      have hsn : cl.Scores.get? (i + 1)
          = some (cl.Scores.get ⟨i + 1, by omega⟩) := List.get?_eq_get (by omega)
      rw [hsn]
      simp only [Option.some_bind]
      rw [Write_some rfl _ (by first | omega | (simp only [FVec.size_set]; omega))]
      simp only [Option.some.injEq, FeatureWriter.mk.injEq]
      exact ⟨_, ⟨rfl, by first | trivial | omega⟩,
        by simp [FVec.data_set, Nat.add_assoc],
        by simp [FVec.data_set, Nat.add_assoc],
        by intro h; simp [FVec.data_set, Nat.add_assoc],
        by intro h; exact absurd h (by omega),
        by intro h; simp [FVec.data_set, Nat.add_assoc],
        by intro h; exact absurd h2 h⟩
    · rw [if_neg h2]
      rw [Write_some rfl _ (by first | omega | (simp only [FVec.size_set]; omega))]
      simp only [Option.some.injEq, FeatureWriter.mk.injEq]
      exact ⟨_, ⟨rfl, by first | trivial | omega⟩,
        by simp [FVec.data_set, Nat.add_assoc],
        by simp [FVec.data_set, Nat.add_assoc],
        by intro h; simp [FVec.data_set, Nat.add_assoc],
        by intro h; exact absurd h (by omega),
        by intro h; exact absurd h h2,
        by intro h; simp [FVec.data_set, Nat.add_assoc]⟩
  · rw [if_neg h0]
    rw [bind_Write _ _ _ _ (by first | omega | (simp only [FVec.size_set]; omega))]
    by_cases h2 : i < cl.Chunks.length - 2
    · rw [if_pos h2]
      have hsn : cl.Scores.get? (i + 1)
          = some (cl.Scores.get ⟨i + 1, by omega⟩) := List.get?_eq_get (by omega)
      rw [hsn]
      simp only [Option.some_bind]
      rw [Write_some rfl _ (by first | omega | (simp only [FVec.size_set]; omega))]
      simp only [Option.some.injEq, FeatureWriter.mk.injEq]
      exact ⟨_, ⟨rfl, by first | trivial | omega⟩,
        by simp [FVec.data_set, Nat.add_assoc],
        by simp [FVec.data_set, Nat.add_assoc],
        by intro h; exact absurd h h0,
        by intro h; simp [FVec.data_set, Nat.add_assoc],
        by intro h; simp [FVec.data_set, Nat.add_assoc],
        by intro h; exact absurd h2 h⟩
    · rw [if_neg h2]
      rw [Write_some rfl _ (by first | omega | (simp only [FVec.size_set]; omega))]
      simp only [Option.some.injEq, FeatureWriter.mk.injEq]
      exact ⟨_, ⟨rfl, by first | trivial | omega⟩,
        by simp [FVec.data_set, Nat.add_assoc],
        by simp [FVec.data_set, Nat.add_assoc],
        by intro h; exact absurd h h0,
        by intro h; simp [FVec.data_set, Nat.add_assoc],
        by intro h; exact absurd h h2,
        by intro h; simp [FVec.data_set, Nat.add_assoc]⟩

/-- C6 witness: in the 4-chunk example cluster, the first chunk gets the
sentinel -10 as previous score, and its next-score slot holds score 2 at
position 1. -/
theorem cluster_score_context_witness :
    ∃ v2, boostWriteCluster (freshWriter boostFeatureCap) c4a clusterEx4
        = some ⟨some v2, (freshWriter boostFeatureCap).Pos + 4⟩ ∧
      v2.data (freshWriter boostFeatureCap).Pos = clusterEx4.score ∧
      clusterEx4.Scores.get? 0
        = some (v2.data ((freshWriter boostFeatureCap).Pos + 1)) ∧
      (0 < 0 → clusterEx4.Scores.get? (0 - 1)
        = some (v2.data ((freshWriter boostFeatureCap).Pos + 2))) ∧
      (0 = 0 → v2.data ((freshWriter boostFeatureCap).Pos + 2) = -10) ∧
      (0 < clusterEx4.Chunks.length - 2 → clusterEx4.Scores.get? (0 + 1)
        = some (v2.data ((freshWriter boostFeatureCap).Pos + 3))) ∧
      (¬ 0 < clusterEx4.Chunks.length - 2 →
        v2.data ((freshWriter boostFeatureCap).Pos + 3) = -10) :=
  cluster_score_context (freshWriter boostFeatureCap)
    ⟨boostFeatureCap, fun _ => 0⟩ c4a clusterEx4 0 rfl (by decide) (by decide)
    (by decide) (by decide)

/-! Claim C1. -/

/-- C1 counterexample: a chunk absent from its putative cluster makes the
identity search reach the end, and the encoding then panics (none) on the
out-of-range read of the score sequence, contradicting the claimed
no-crash behavior. -/
theorem cluster_miss_crashes_concretely :
    clusterEx.Chunks.findIdx (fun c => c.id == cStray.id)
        = clusterEx.Chunks.length ∧
      clusterEx.Scores.length = clusterEx.Chunks.length ∧
      boostWriteCluster (freshWriter boostFeatureCap) cStray clusterEx
        = none :=
  ⟨by decide, by decide, rfl⟩

/-- C1 amended: when the identity search reaches the end without finding
the chunk, the encoding does not stay in bounds: the write of the own
per-chunk score of the chunk reads the score sequence at its full length, out of
range, and the encoding panics (none), even though the writer itself had
room; only the neighbor lookups are bounded. -/
theorem cluster_miss_panics (fw : FeatureWriter) (v : FVec) (chunk : Chunk)
    (cl : Cluster) (hv : fw.feature = some v) (hroom : fw.Pos + 4 ≤ v.size)
    (hlen : cl.Scores.length = cl.Chunks.length)
    (hmiss : cl.Chunks.findIdx (fun c => c.id == chunk.id)
      = cl.Chunks.length) :
    boostWriteCluster fw chunk cl = none := by
  obtain ⟨f, p⟩ := fw
  simp only at hv
  subst hv
  simp only at hroom
  simp only [boostWriteCluster, Option.bind_eq_bind, Option.pure_def, hmiss]
  rw [bind_Write _ _ _ _ (by omega), List.get?_eq_none.mpr (by omega)]
  simp

/-- C1 witness: the amended behavior at the concrete one-chunk cluster
and the stray chunk. -/
theorem cluster_miss_panics_witness :
    boostWriteCluster (freshWriter boostFeatureCap) cStray clusterEx
      = none :=
  cluster_miss_panics (freshWriter boostFeatureCap)
    ⟨boostFeatureCap, fun _ => 0⟩ cStray clusterEx rfl (by decide) (by decide)
    (by decide)

/-! Claim C8. -/

/-- C8 counterexample: with classes first (10 words over 3 occurrences)
and second (7 words over 2 occurrences), the selection keeps the first
statistic because the integer quotients tie at 3, although the exact
words-per-occurrence ratio of the second class is strictly higher: the
class with the highest ratio is not the one selected. -/
theorem class_stat_exact_ratio_not_selected :
    findBestStat mEx cClassy.Classes none = some (some statA) ∧
      statA ≠ statB ∧
      specRatio statA < specRatio statB := by
  refine ⟨by decide, by decide, ?_⟩
  norm_num [specRatio, statA, statB]

/-- C8 amended: among the classes with a map entry the encoder selects the
first class achieving the maximal integer words-per-occurrence quotient
(Words/Count with truncating division, the comparison the code performs),
replacing the current best only on strictly greater quotient so the
first-encountered class wins equal quotients; on a find it writes
presence 1 and the two exact averages of the selected class, else
presence 0 with the two average slots left untouched. -/
theorem class_stat_argmax_first (fw : FeatureWriter) (v : FVec)
    (chunk : Chunk) (m : String → Option TextStat) (hv : fw.feature = some v)
    (hroom : fw.Pos + 3 ≤ v.size)
    (hm : ∀ c s, m c = some s → s.Count ≠ 0) :
    (chunk.Classes.filterMap m = [] →
      ∃ v2, chunkWriteClassStat fw chunk m = some ⟨some v2, fw.Pos + 3⟩ ∧
        v2.data fw.Pos = 0 ∧
        v2.data (fw.Pos + 1) = v.data (fw.Pos + 1) ∧
        v2.data (fw.Pos + 2) = v.data (fw.Pos + 2)) ∧
    (chunk.Classes.filterMap m ≠ [] →
      ∃ v2 b j, chunkWriteClassStat fw chunk m = some ⟨some v2, fw.Pos + 3⟩ ∧
        j < (chunk.Classes.filterMap m).length ∧
        (chunk.Classes.filterMap m).get? j = some b ∧
        (∀ s ∈ chunk.Classes.filterMap m, ratio s ≤ ratio b) ∧
        (∀ k, k < j → ∀ s, (chunk.Classes.filterMap m).get? k = some s →
          ratio s < ratio b) ∧
        v2.data fw.Pos = 1 ∧
        v2.data (fw.Pos + 1) = (b.Words : ℚ) / (b.Count : ℚ) ∧
        v2.data (fw.Pos + 2) = (b.Sentences : ℚ) / (b.Count : ℚ)) := by
  obtain ⟨f, p⟩ := fw
  simp only at hv
  subst hv
  simp only at hroom
  simp only [chunkWriteClassStat, Option.bind_eq_bind, Option.pure_def]
  rw [findBestStat_eq_pickTotal m hm chunk.Classes none (by simp)]
  simp only [Option.some_bind]
  constructor
  · intro hempty
    rw [hempty]
    simp only [pickTotal]
    try dsimp only
    rw [bind_Write _ _ _ _ (by omega)]
    simp only [FeatureWriter.Skip, Option.some.injEq, FeatureWriter.mk.injEq]
    exact ⟨_, ⟨rfl, by first | trivial | omega⟩,
      by simp [FVec.data_set, boolVal],
      by simp [FVec.data_set, Nat.add_assoc],
      by simp [FVec.data_set, Nat.add_assoc]⟩
  · intro hne
    obtain ⟨b, j, hpick, hj, hget, hmax, hpre⟩ :=
      pickTotal_none_char (chunk.Classes.filterMap m) hne
    rw [hpick]
    try dsimp only
    rw [bind_Write _ _ _ _ (by omega),
      bind_Write _ _ _ _ (by first | omega | (simp only [FVec.size_set]; omega)),
      Write_some rfl _ (by first | omega | (simp only [FVec.size_set]; omega))]
    simp only [Option.some.injEq, FeatureWriter.mk.injEq]
    exact ⟨_, b, j, ⟨rfl, by first | trivial | omega⟩, hj, hget, hmax, hpre,
      by simp [FVec.data_set, Nat.add_assoc, boolVal],
      by simp [FVec.data_set, Nat.add_assoc],
      by simp [FVec.data_set, Nat.add_assoc]⟩

/-- C8 witness: at the two-class example the selected class is the first
one (index 0), its integer quotient 3 is maximal among both candidates,
and the written averages are 10/3 and 4/3. -/
theorem class_stat_argmax_first_witness :
    ∃ v2 b j, chunkWriteClassStat (freshWriter chunkFeatureCap) cClassy mEx
        = some ⟨some v2, (freshWriter chunkFeatureCap).Pos + 3⟩ ∧
      j < (cClassy.Classes.filterMap mEx).length ∧
      (cClassy.Classes.filterMap mEx).get? j = some b ∧
      (∀ s ∈ cClassy.Classes.filterMap mEx, ratio s ≤ ratio b) ∧
      (∀ k, k < j → ∀ s, (cClassy.Classes.filterMap mEx).get? k = some s →
        ratio s < ratio b) ∧
      v2.data (freshWriter chunkFeatureCap).Pos = 1 ∧
      v2.data ((freshWriter chunkFeatureCap).Pos + 1)
        = (b.Words : ℚ) / (b.Count : ℚ) ∧
      v2.data ((freshWriter chunkFeatureCap).Pos + 2)
        = (b.Sentences : ℚ) / (b.Count : ℚ) :=
  (class_stat_argmax_first (freshWriter chunkFeatureCap)
    ⟨chunkFeatureCap, fun _ => 0⟩ cClassy mEx rfl (by decide)
    (fun c s h => by
      simp only [mEx] at h
      split at h
      · injection h with h2
        subst h2
        decide
      · split at h
        · injection h with h2
          subst h2
          decide
        · exact absurd h (by simp))).2 (by decide)

end Newscat
